import Mathlib

/-!
Shallow embedding of the JNI bridge in
`src/app/src/main/cpp/TFLiteEngineJNI.cpp`.

The file contains five `extern "C"` exports that marshal managed-runtime
values to native representations, call into an external `TFLiteEngine`
object reached via a raw pointer handle, and marshal the result back:

* `createTFLiteEngine` : `new TFLiteEngine()`, return the pointer as `jlong`;
* `loadModel`          : borrow the UTF chars of the path, call
  `engine->loadModel(path, flag)`, release the chars, return the `int` status;
* `freeModel`          : `engine->freeModel(); delete engine;`
* `transcribeBuffer`   : read the array length, borrow the float elements,
  copy them into a `std::vector<float>`, release the elements with
  `JNI_ABORT`, call `engine->transcribeBuffer(vector)`, return
  `NewStringUTF(result.c_str())`;
* `transcribeFile`     : borrow the UTF chars of the path, call
  `engine->transcribeFile(path)`, release the chars, return
  `NewStringUTF(result.c_str())`.

Modelling choices:

* The external engine (`TFLiteEngine.h`, not part of the bridge file) is an
  opaque collaborator: bridge operations are parameterised by an `EngineOps σ`
  record of its four methods over an abstract engine-state type `σ`.
* Audio samples are opaque scalar values (the bridge never interprets a
  float, it only copies it), modelled as `Nat` bit-patterns.
* The process heap of engine objects is an association list from addresses
  (`jlong` handle values) to engine states, together with a fresh-address
  counter: `new` returns an address distinct from every live allocation.
* `std::string` results may contain embedded NUL characters, so they are
  modelled as `List Char`; `.c_str()` appends the terminating NUL and
  `NewStringUTF` reads the buffer up to the first NUL.
* Dereferencing a handle that is not live is undefined behaviour in the
  C++ source; the embedding returns `none` there, and `some` exactly when
  the call completes normally.
* Each operation also returns the ordered trace of JNI-boundary and engine
  events it performs, so ordering and pairing of acquisitions and releases
  can be stated.
-/

namespace NativeBridge

/-- Opaque audio sample value: the bridge only copies samples, never
interprets them, so the scalar is modelled as a bit-pattern. -/
abbrev Sample := Nat

/-- A native `std::string`, which may contain embedded NUL characters. -/
abbrev EngineString := List Char

/-- The NUL character terminating a C string. -/
def nulChar : Char := Char.ofNat 0

/-- Release mode passed to `ReleaseFloatArrayElements`: `commit` (mode 0)
copies the native buffer back into the managed array, `abort` (`JNI_ABORT`)
discards the native buffer without copying back. -/
inductive RelMode where
  | commit
  | abort
deriving DecidableEq

/-- JNI-boundary and engine events, in the order a bridge call performs
them. -/
inductive Ev where
  | getStringUTFChars
  | releaseStringUTFChars
  | getArrayLength
  | getFloatArrayElements
  | copySamples
  | releaseFloatArrayElements (mode : RelMode)
  | engineLoadModel
  | engineFreeModel
  | engineTranscribeBuffer
  | engineTranscribeFile
  | deleteEngine
  | newStringUTF
deriving DecidableEq

/-- The four methods of the external `TFLiteEngine`, over an abstract
engine-state type `σ`.  The engine is an external collaborator: the bridge
makes no assumption about these functions. -/
structure EngineOps (σ : Type) where
  loadModel : σ → String → Bool → Int × σ
  freeModel : σ → σ
  transcribeBuffer : σ → List Sample → EngineString × σ
  transcribeFile : σ → String → EngineString × σ

/-- The process heap of live engine objects: an association list from
addresses (handle values) to engine states, plus a fresh-address counter. -/
structure Heap (σ : Type) where
  next : Nat
  objs : List (Nat × σ)
deriving DecidableEq

/-- Look an address up in the object list. -/
def lookupE {σ : Type} : List (Nat × σ) → Nat → Option σ
  | [], _ => none
  | (a, e) :: rest, p => if a = p then some e else lookupE rest p

/-- Dereference a handle: `some` state when live, `none` when stale. -/
def findEngine {σ : Type} (heap : Heap σ) (p : Nat) : Option σ :=
  lookupE heap.objs p

/-- Replace the state of the object at address `p`. -/
def updateL {σ : Type} : List (Nat × σ) → Nat → σ → List (Nat × σ)
  | [], _, _ => []
  | (a, b) :: rest, p, e =>
    if a = p then (a, e) :: updateL rest p e else (a, b) :: updateL rest p e

/-- Heap after an in-place mutation of the engine object behind `p`. -/
def updateEngine {σ : Type} (heap : Heap σ) (p : Nat) (e : σ) : Heap σ :=
  { heap with objs := updateL heap.objs p e }

/-- Remove the object at address `p` from the object list. -/
def removeL {σ : Type} : List (Nat × σ) → Nat → List (Nat × σ)
  | [], _ => []
  | (a, b) :: rest, p =>
    if a = p then removeL rest p else (a, b) :: removeL rest p

/-- Heap after `delete` of the object at address `p`. -/
def removeEngine {σ : Type} (heap : Heap σ) (p : Nat) : Heap σ :=
  { heap with objs := removeL heap.objs p }

/-- Allocator well-formedness: every live address is below the
fresh-address counter (`new` never hands out an address that is still
live). -/
def Wf {σ : Type} (heap : Heap σ) : Prop :=
  ∀ pr ∈ heap.objs, pr.1 < heap.next

instance {σ : Type} (heap : Heap σ) : Decidable (Wf heap) :=
  inferInstanceAs (Decidable (∀ pr ∈ heap.objs, pr.1 < heap.next))

/-- `Java_..._createTFLiteEngine`: `TFLiteEngine *engine = new TFLiteEngine();
return reinterpret_cast<jlong>(engine);` — allocate a fresh engine object
(default-constructed state `init`) and return its address as the handle. -/
def createTFLiteEngine {σ : Type} (init : σ) (heap : Heap σ) : Nat × Heap σ :=
  let engine := heap.next
  (engine, { next := heap.next + 1, objs := (engine, init) :: heap.objs })

/-- `Java_..._loadModel`: cast the handle, borrow the UTF chars of the
path, call `engine->loadModel(modelPathStr, isMultilingual)`, release the
chars, return the engine's `int` result. -/
def loadModel {σ : Type} (ops : EngineOps σ) (heap : Heap σ) (nativePtr : Nat)
    (modelPath : String) (isMultilingual : Bool) :
    Option (Int × Heap σ × List Ev) :=
  match findEngine heap nativePtr with
  | none => none
  | some engine =>
    let modelPathStr := modelPath
    let r := ops.loadModel engine modelPathStr isMultilingual
    some (r.1, updateEngine heap nativePtr r.2,
      [Ev.getStringUTFChars, Ev.engineLoadModel, Ev.releaseStringUTFChars])

/-- `Java_..._freeModel`: cast the handle, call `engine->freeModel()`
(releasing the engine's internal resources), then `delete engine`
(deallocating the object: the address stops being live). -/
def freeModel {σ : Type} (ops : EngineOps σ) (heap : Heap σ) (nativePtr : Nat) :
    Option (Heap σ × List Ev) :=
  match findEngine heap nativePtr with
  | none => none
  | some engine =>
    let _released := ops.freeModel engine
    some (removeEngine heap nativePtr, [Ev.engineFreeModel, Ev.deleteEngine])

/-- `ReleaseFloatArrayElements`: with `commit` the native buffer is copied
back into the managed array; with `JNI_ABORT` the buffer is discarded and
the managed array keeps its previous contents. -/
def releaseFloatArrayElements (arr buf : List Sample) : RelMode → List Sample
  | RelMode.commit => buf
  | RelMode.abort => arr

/-- `.c_str()`: the NUL-terminated character buffer of a `std::string`. -/
def cString (s : EngineString) : List Char := s ++ [nulChar]

/-- `NewStringUTF` reads its argument buffer up to the first NUL. -/
def readCString : List Char → List Char
  | [] => []
  | c :: rest => if c = nulChar then [] else c :: readCString rest

/-- `env->NewStringUTF(result.c_str())`: marshal a native string to the
managed runtime through its C-string representation. -/
def newStringUTF (s : EngineString) : EngineString :=
  readCString (cString s)

/-- `Java_..._transcribeBuffer`: cast the handle, read the array length,
borrow the float elements, copy `[samplesPtr, samplesPtr + length)` into a
`std::vector<float>`, release the elements with `JNI_ABORT`, call
`engine->transcribeBuffer(sampleVector)` and marshal the result with
`NewStringUTF(result.c_str())`.  Besides the text it returns the updated
heap, the managed array's contents after the call, and the event trace. -/
def transcribeBuffer {σ : Type} (ops : EngineOps σ) (heap : Heap σ)
    (nativePtr : Nat) (samples : List Sample) :
    Option (EngineString × Heap σ × List Sample × List Ev) :=
  match findEngine heap nativePtr with
  | none => none
  | some engine =>
    let length := samples.length
    let samplesPtr := samples
    let sampleVector := samplesPtr.take length
    let samplesAfter := releaseFloatArrayElements samples samplesPtr RelMode.abort
    let r := ops.transcribeBuffer engine sampleVector
    some (newStringUTF r.1, updateEngine heap nativePtr r.2, samplesAfter,
      [Ev.getArrayLength, Ev.getFloatArrayElements, Ev.copySamples,
       Ev.releaseFloatArrayElements RelMode.abort, Ev.engineTranscribeBuffer,
       Ev.newStringUTF])

/-- `Java_..._transcribeFile`: cast the handle, borrow the UTF chars of the
wave-file path, call `engine->transcribeFile(waveFileStr)`, release the
chars, marshal the result with `NewStringUTF(result.c_str())`. -/
def transcribeFile {σ : Type} (ops : EngineOps σ) (heap : Heap σ)
    (nativePtr : Nat) (waveFile : String) :
    Option (EngineString × Heap σ × List Ev) :=
  match findEngine heap nativePtr with
  | none => none
  | some engine =>
    let waveFileStr := waveFile
    let r := ops.transcribeFile engine waveFileStr
    some (newStringUTF r.1, updateEngine heap nativePtr r.2,
      [Ev.getStringUTFChars, Ev.engineTranscribeFile, Ev.releaseStringUTFChars,
       Ev.newStringUTF])

/-! ### Trace-ordering helpers -/

/-- Index of the first event satisfying `p` in a trace. -/
def firstIdxP (p : Ev → Bool) : List Ev → Option Nat
  | [] => none
  | x :: rest => if p x then some 0 else (firstIdxP p rest).map (· + 1)

/-- The first event satisfying `pa` occurs strictly before the first event
satisfying `pb`. -/
def beforeP (pa pb : Ev → Bool) (t : List Ev) : Bool :=
  match firstIdxP pa t, firstIdxP pb t with
  | some i, some j => decide (i < j)
  | _, _ => false

/-- Event `a` first occurs strictly before event `b` in trace `t`. -/
def evBefore (t : List Ev) (a b : Ev) : Bool :=
  beforeP (fun x => x == a) (fun x => x == b) t

/-- Number of events satisfying `p` in a trace. -/
def countEv (p : Ev → Bool) (t : List Ev) : Nat :=
  (t.filter p).length

/-- One acquisition matched by exactly one release, the release coming
after the acquisition. -/
def pairedOnce (acq rel : Ev → Bool) (t : List Ev) : Prop :=
  countEv acq t = 1 ∧ countEv rel t = 1 ∧ beforeP acq rel t = true

instance (acq rel : Ev → Bool) (t : List Ev) : Decidable (pairedOnce acq rel t) :=
  inferInstanceAs
    (Decidable (countEv acq t = 1 ∧ countEv rel t = 1 ∧ beforeP acq rel t = true))

/-- Events that borrow managed string chars. -/
def isStringAcquire : Ev → Bool
  | Ev.getStringUTFChars => true
  | _ => false

/-- Events that release borrowed managed string chars. -/
def isStringRelease : Ev → Bool
  | Ev.releaseStringUTFChars => true
  | _ => false

/-- Events that borrow managed array elements. -/
def isArrayAcquire : Ev → Bool
  | Ev.getFloatArrayElements => true
  | _ => false

/-- Events that release borrowed managed array elements (any mode). -/
def isArrayRelease : Ev → Bool
  | Ev.releaseFloatArrayElements _ => true
  | _ => false

/-! ### Spec-modelled external engine

`TFLiteEngine.h` and its implementation are not under `src/`; only the
bridge file is.  The spec's statements about engine behaviour (load status
on an unreadable path, transcription of an empty buffer) are therefore
modelled from the spec's words, parameterised by everything the spec
leaves engine-defined. -/

/-- Modelled from the spec: the state of the external `TFLiteEngine`
(whether a model is loaded, and the multilingual flag it was loaded with).
The engine implementation is not under `src/`. -/
structure SpecEngine where
  loaded : Bool
  multilingual : Bool
deriving DecidableEq

/-- Modelled from the spec: `TFLiteEngine::loadModel` returns status `0` on
success and an engine-defined nonzero status when the model path is not
readable, leaving the engine state unchanged on failure.  `fileReadable`
abstracts the filesystem. -/
def specLoadModel (fileReadable : String → Bool) (e : SpecEngine)
    (path : String) (multilingual : Bool) : Int × SpecEngine :=
  if fileReadable path then (0, { loaded := true, multilingual := multilingual })
  else (1, e)

/-- Modelled from the spec: `TFLiteEngine::freeModel` releases the engine's
internal resources. -/
def specFreeModel (e : SpecEngine) : SpecEngine :=
  { e with loaded := false }

/-- Modelled from the spec: `TFLiteEngine::transcribeBuffer` returns an
empty or engine-defined no-speech text on an empty sample sequence and an
engine-defined text otherwise, never crashing. -/
def specTranscribeBuffer (noSpeech : EngineString)
    (engineText : List Sample → EngineString) (e : SpecEngine)
    (samples : List Sample) : EngineString × SpecEngine :=
  if samples.isEmpty then (noSpeech, e) else (engineText samples, e)

/-- Modelled from the spec: the external engine's four methods, with every
engine-defined behaviour left as a parameter. -/
def specOps (fileReadable : String → Bool) (noSpeech : EngineString)
    (engineText : List Sample → EngineString)
    (fileText : String → EngineString) : EngineOps SpecEngine :=
  { loadModel := specLoadModel fileReadable,
    freeModel := specFreeModel,
    transcribeBuffer := specTranscribeBuffer noSpeech engineText,
    transcribeFile := fun e p => (fileText p, e) }

/-! ### Concrete instances used by witnesses and counterexamples -/

/-- A trivial stateless engine used to witness the bridge theorems. -/
def unitOps : EngineOps Unit :=
  { loadModel := fun _ _ _ => (7, ()),
    freeModel := fun _ => (),
    transcribeBuffer := fun _ _ => (['o', 'k'], ()),
    transcribeFile := fun _ _ => (['o', 'k'], ()) }

/-- An engine whose transcription results contain an embedded NUL. -/
def nulOps : EngineOps Unit :=
  { loadModel := fun _ _ _ => (0, ()),
    freeModel := fun _ => (),
    transcribeBuffer := fun _ _ => (['a', nulChar, 'b'], ()),
    transcribeFile := fun _ _ => (['a', nulChar, 'b'], ()) }

/-- A one-object heap: a single live engine at address `0`. -/
def heap1 : Heap Unit := { next := 1, objs := [(0, ())] }

/-- A default-constructed spec-modelled engine: no model loaded. -/
def specEngine0 : SpecEngine := { loaded := false, multilingual := false }

/-- A one-object heap holding a spec-modelled engine at address `0`. -/
def specHeap1 : Heap SpecEngine := { next := 1, objs := [(0, specEngine0)] }

/-! ### Helper lemmas -/

theorem lookupE_none_of_forall_lt {σ : Type} {l : List (Nat × σ)} {n : Nat}
    (h : ∀ pr ∈ l, pr.1 < n) : lookupE l n = none := by
  induction l with
  | nil => rfl
  | cons hd tl ih =>
    obtain ⟨a, b⟩ := hd
    have ha : a < n := h (a, b) (List.mem_cons_self _ _)
    have hne : a ≠ n := Nat.ne_of_lt ha
    simp only [lookupE, if_neg hne]
    exact ih fun pr hpr => h pr (List.mem_cons_of_mem _ hpr)

theorem lt_of_lookupE_some {σ : Type} {l : List (Nat × σ)} {q n : Nat} {st : σ}
    (h : lookupE l q = some st) (hl : ∀ pr ∈ l, pr.1 < n) : q < n := by
  induction l with
  | nil => simp [lookupE] at h
  | cons hd tl ih =>
    obtain ⟨a, b⟩ := hd
    by_cases ha : a = q
    · subst ha
      exact hl (a, b) (List.mem_cons_self _ _)
    · simp only [lookupE, if_neg ha] at h
      exact ih h fun pr hpr => hl pr (List.mem_cons_of_mem _ hpr)

theorem lookupE_updateL_self {σ : Type} {l : List (Nat × σ)} {p : Nat} {st : σ}
    (e : σ) (h : lookupE l p = some st) :
    lookupE (updateL l p e) p = some e := by
  induction l with
  | nil => simp [lookupE] at h
  | cons hd tl ih =>
    obtain ⟨a, b⟩ := hd
    by_cases ha : a = p
    · simp [lookupE, updateL, ha]
    · simp only [lookupE, if_neg ha] at h
      simp only [updateL, if_neg ha, lookupE, if_neg ha]
      exact ih h

theorem lookupE_updateL_ne {σ : Type} (l : List (Nat × σ)) (p q : Nat) (e : σ)
    (hq : q ≠ p) : lookupE (updateL l p e) q = lookupE l q := by
  induction l with
  | nil => rfl
  | cons hd tl ih =>
    obtain ⟨a, b⟩ := hd
    by_cases ha : a = p
    · have haq : a ≠ q := fun hc => hq (hc ▸ ha)
      simp only [updateL, if_pos ha, lookupE, if_neg haq]
      exact ih
    · simp only [updateL, if_neg ha, lookupE]
      by_cases haq : a = q
      · simp [haq]
      · simp only [if_neg haq]
        exact ih

theorem findEngine_updateEngine_self {σ : Type} {heap : Heap σ} {p : Nat}
    {st : σ} (e : σ) (h : findEngine heap p = some st) :
    findEngine (updateEngine heap p e) p = some e :=
  lookupE_updateL_self e h

theorem lookupE_removeL_self {σ : Type} (l : List (Nat × σ)) (p : Nat) :
    lookupE (removeL l p) p = none := by
  induction l with
  | nil => rfl
  | cons hd tl ih =>
    obtain ⟨a, b⟩ := hd
    by_cases ha : a = p
    · simp only [removeL, if_pos ha]
      exact ih
    · simp only [removeL, if_neg ha, lookupE, if_neg ha]
      exact ih

theorem lookupE_removeL_ne {σ : Type} (l : List (Nat × σ)) (p q : Nat)
    (hq : q ≠ p) :
    lookupE (removeL l p) q = lookupE l q := by
  induction l with
  | nil => rfl
  | cons hd tl ih =>
    obtain ⟨a, b⟩ := hd
    by_cases ha : a = p
    · have haq : a ≠ q := fun hc => hq (hc ▸ ha)
      simp only [removeL, if_pos ha, lookupE, if_neg haq]
      exact ih
    · simp only [removeL, if_neg ha, lookupE]
      by_cases haq : a = q
      · simp [haq]
      · simp only [if_neg haq]
        exact ih

theorem readCString_append_not_mem {s : List Char} (t : List Char)
    (h : nulChar ∉ s) : readCString (s ++ t) = s ++ readCString t := by
  induction s with
  | nil => rfl
  | cons c rest ih =>
    have hc : c ≠ nulChar := fun hc => h (hc ▸ List.mem_cons_self _ _)
    have hrest : nulChar ∉ rest := fun hr => h (List.mem_cons_of_mem _ hr)
    simp [readCString, hc, ih hrest]

theorem newStringUTF_of_not_mem {s : List Char} (h : nulChar ∉ s) :
    newStringUTF s = s := by
  have : readCString (s ++ [nulChar]) = s ++ readCString [nulChar] :=
    readCString_append_not_mem [nulChar] h
  simp only [newStringUTF, cString, this]
  simp [readCString]

theorem newStringUTF_eq_takeWhile (s : EngineString) :
    newStringUTF s = s.takeWhile (fun c => c != nulChar) := by
  simp only [newStringUTF, cString]
  induction s with
  | nil => simp [readCString]
  | cons c rest ih =>
    by_cases hc : c = nulChar
    · have hb : (c != nulChar) = false := by simp [hc]
      simp [readCString, hc, List.takeWhile, hb]
    · have hb : (c != nulChar) = true := by simp [hc]
      simp [readCString, hc, List.takeWhile, hb, ih]

/-! ### Claim theorems -/

/-- Claim C1: for every live engine handle, model path and multilingual
flag, `loadModel` passes the path and flag unchanged to the external
engine's load routine (the engine is applied to exactly the caller's
`modelPath` and `isMultilingual`) and returns exactly the integer status
code that routine returns, with no reinterpretation. -/
theorem loadModel_pass_through {σ : Type} (ops : EngineOps σ) (heap : Heap σ)
    (nativePtr : Nat) (engine : σ) (modelPath : String) (isMultilingual : Bool)
    (h : findEngine heap nativePtr = some engine) :
    loadModel ops heap nativePtr modelPath isMultilingual =
      some ((ops.loadModel engine modelPath isMultilingual).1,
        updateEngine heap nativePtr
          (ops.loadModel engine modelPath isMultilingual).2,
        [Ev.getStringUTFChars, Ev.engineLoadModel, Ev.releaseStringUTFChars]) := by
  simp [loadModel, h]

theorem loadModel_pass_through_witness :
    findEngine heap1 0 = some () ∧
    loadModel unitOps heap1 0 "model.tflite" true =
      some ((unitOps.loadModel () "model.tflite" true).1,
        updateEngine heap1 0 (unitOps.loadModel () "model.tflite" true).2,
        [Ev.getStringUTFChars, Ev.engineLoadModel, Ev.releaseStringUTFChars]) :=
  ⟨rfl, loadModel_pass_through unitOps heap1 0 () "model.tflite" true rfl⟩

/-- Claim C2: for every input sample sequence, `transcribeBuffer` copies
the entire sequence by value into a native-owned vector (the engine is
invoked on exactly the caller's sample sequence), completes the copy
before the caller's array elements are released and before the engine is
invoked, and leaves the caller-owned array unmutated after the call
returns (`JNI_ABORT` performs no write-back: the array contents returned
to the caller are exactly `samples`). -/
theorem transcribeBuffer_copies_before_releasing {σ : Type}
    (ops : EngineOps σ) (heap : Heap σ) (nativePtr : Nat) (engine : σ)
    (samples : List Sample) (h : findEngine heap nativePtr = some engine) :
    ∃ tr,
      transcribeBuffer ops heap nativePtr samples =
        some (newStringUTF (ops.transcribeBuffer engine samples).1,
          updateEngine heap nativePtr (ops.transcribeBuffer engine samples).2,
          samples, tr) ∧
      evBefore tr Ev.copySamples (Ev.releaseFloatArrayElements RelMode.abort)
        = true ∧
      evBefore tr (Ev.releaseFloatArrayElements RelMode.abort)
        Ev.engineTranscribeBuffer = true := by
  refine ⟨[Ev.getArrayLength, Ev.getFloatArrayElements, Ev.copySamples,
    Ev.releaseFloatArrayElements RelMode.abort, Ev.engineTranscribeBuffer,
    Ev.newStringUTF], ?_, by decide, by decide⟩
  simp [transcribeBuffer, h, releaseFloatArrayElements, List.take_length]

theorem transcribeBuffer_copies_before_releasing_witness :
    findEngine heap1 0 = some () ∧
    ∃ tr,
      transcribeBuffer unitOps heap1 0 [3, 1, 4] =
        some (newStringUTF (unitOps.transcribeBuffer () [3, 1, 4]).1,
          updateEngine heap1 0 (unitOps.transcribeBuffer () [3, 1, 4]).2,
          [3, 1, 4], tr) ∧
      evBefore tr Ev.copySamples (Ev.releaseFloatArrayElements RelMode.abort)
        = true ∧
      evBefore tr (Ev.releaseFloatArrayElements RelMode.abort)
        Ev.engineTranscribeBuffer = true :=
  ⟨rfl, transcribeBuffer_copies_before_releasing unitOps heap1 0 () [3, 1, 4] rfl⟩

/-- Claim C3, counterexample: the bridge marshals results through
`result.c_str()`, so an engine transcription containing an embedded NUL is
not returned verbatim.  With a live engine at handle `0` whose
transcription of the empty buffer is `['a', NUL, 'b']`, the bridge returns
`['a']`, not that string. -/
theorem transcribe_not_verbatim_cex :
    (nulOps.transcribeBuffer () []).1 = ['a', nulChar, 'b'] ∧
    transcribeBuffer nulOps heap1 0 [] =
      some (['a'], updateEngine heap1 0 (), [],
        [Ev.getArrayLength, Ev.getFloatArrayElements, Ev.copySamples,
         Ev.releaseFloatArrayElements RelMode.abort, Ev.engineTranscribeBuffer,
         Ev.newStringUTF]) ∧
    (['a'] : List Char) ≠ ['a', nulChar, 'b'] := by
  refine ⟨rfl, ?_, by decide⟩
  rfl

/-- Claim C3, amended: for every live handle, whenever the external
engine's transcription text contains no embedded NUL character,
`transcribeBuffer` and `transcribeFile` return to the caller exactly that
text, verbatim and unmodified; a result containing an embedded NUL is
truncated at the first NUL by the C-string marshaling. -/
theorem transcribe_verbatim_of_no_nul {σ : Type} (ops : EngineOps σ)
    (heap : Heap σ) (nativePtr : Nat) (engine : σ) (samples : List Sample)
    (waveFile : String) (h : findEngine heap nativePtr = some engine)
    (hb : nulChar ∉ (ops.transcribeBuffer engine samples).1)
    (hf : nulChar ∉ (ops.transcribeFile engine waveFile).1) :
    (∃ heapB sa tr, transcribeBuffer ops heap nativePtr samples =
      some ((ops.transcribeBuffer engine samples).1, heapB, sa, tr)) ∧
    (∃ heapF tr, transcribeFile ops heap nativePtr waveFile =
      some ((ops.transcribeFile engine waveFile).1, heapF, tr)) := by
  constructor
  · refine ⟨updateEngine heap nativePtr (ops.transcribeBuffer engine samples).2,
      samples,
      [Ev.getArrayLength, Ev.getFloatArrayElements, Ev.copySamples,
       Ev.releaseFloatArrayElements RelMode.abort, Ev.engineTranscribeBuffer,
       Ev.newStringUTF], ?_⟩
    simp [transcribeBuffer, h, releaseFloatArrayElements, List.take_length,
      newStringUTF_of_not_mem hb]
  · refine ⟨updateEngine heap nativePtr (ops.transcribeFile engine waveFile).2,
      [Ev.getStringUTFChars, Ev.engineTranscribeFile, Ev.releaseStringUTFChars,
       Ev.newStringUTF], ?_⟩
    simp [transcribeFile, h, newStringUTF_of_not_mem hf]

theorem transcribe_verbatim_of_no_nul_witness :
    findEngine heap1 0 = some () ∧
    nulChar ∉ (unitOps.transcribeBuffer () [3]).1 ∧
    nulChar ∉ (unitOps.transcribeFile () "a.wav").1 ∧
    ((∃ heapB sa tr, transcribeBuffer unitOps heap1 0 [3] =
        some ((unitOps.transcribeBuffer () [3]).1, heapB, sa, tr)) ∧
      (∃ heapF tr, transcribeFile unitOps heap1 0 "a.wav" =
        some ((unitOps.transcribeFile () "a.wav").1, heapF, tr))) :=
  ⟨rfl, by decide, by decide,
    transcribe_verbatim_of_no_nul unitOps heap1 0 () [3] "a.wav" rfl
      (by decide) (by decide)⟩

/-- Claim C4: `createTFLiteEngine` is a total function (it never fails
observably) and, on any allocator-well-formed heap, the handle it returns
is not live before the call (so it is distinct from, and does not reuse,
any previously created handle that is still live), wraps a freshly
allocated engine instance after the call, preserves every previously live
handle, and keeps the heap well-formed. -/
theorem createTFLiteEngine_fresh {σ : Type} (init : σ) (heap : Heap σ)
    (hwf : Wf heap) :
    findEngine heap (createTFLiteEngine init heap).1 = none ∧
    findEngine (createTFLiteEngine init heap).2
      (createTFLiteEngine init heap).1 = some init ∧
    Wf (createTFLiteEngine init heap).2 ∧
    ∀ q st, findEngine heap q = some st →
      q ≠ (createTFLiteEngine init heap).1 ∧
      findEngine (createTFLiteEngine init heap).2 q = some st := by
  refine ⟨lookupE_none_of_forall_lt hwf, ?_, ?_, ?_⟩
  · simp [createTFLiteEngine, findEngine, lookupE]
  · intro pr hpr
    simp only [createTFLiteEngine, List.mem_cons] at hpr ⊢
    rcases hpr with hpr | hpr
    · subst hpr
      exact Nat.lt_succ_self _
    · exact Nat.lt_trans (hwf pr hpr) (Nat.lt_succ_self _)
  · intro q st hq
    have hlt : q < heap.next := lt_of_lookupE_some hq hwf
    have hne : q ≠ heap.next := Nat.ne_of_lt hlt
    have hne2 : ¬ (heap.next = q) := fun hc => hne hc.symm
    refine ⟨hne, ?_⟩
    simp only [createTFLiteEngine, findEngine, lookupE, if_neg hne2]
    exact hq

theorem createTFLiteEngine_fresh_witness :
    Wf heap1 ∧
    (findEngine heap1 (createTFLiteEngine () heap1).1 = none ∧
      findEngine (createTFLiteEngine () heap1).2
        (createTFLiteEngine () heap1).1 = some () ∧
      Wf (createTFLiteEngine () heap1).2 ∧
      ∀ q st, findEngine heap1 q = some st →
        q ≠ (createTFLiteEngine () heap1).1 ∧
        findEngine (createTFLiteEngine () heap1).2 q = some st) :=
  ⟨by decide, createTFLiteEngine_fresh () heap1 (by decide)⟩

/-- Claim C5: for every live handle, `freeModel` performs exactly two
steps in order — it first calls the engine's `freeModel` (releasing the
engine's internal resources) and only then `delete`s the engine object:
its event trace is exactly `[engineFreeModel, deleteEngine]` with the
release step strictly before the deallocation step, after which the handle
is no longer live while every other handle is untouched. -/
theorem freeModel_releases_then_deletes {σ : Type} (ops : EngineOps σ)
    (heap : Heap σ) (nativePtr : Nat) (engine : σ)
    (h : findEngine heap nativePtr = some engine) :
    freeModel ops heap nativePtr =
      some (removeEngine heap nativePtr,
        [Ev.engineFreeModel, Ev.deleteEngine]) ∧
    evBefore [Ev.engineFreeModel, Ev.deleteEngine]
      Ev.engineFreeModel Ev.deleteEngine = true ∧
    findEngine (removeEngine heap nativePtr) nativePtr = none ∧
    ∀ q, q ≠ nativePtr →
      findEngine (removeEngine heap nativePtr) q = findEngine heap q := by
  refine ⟨by simp [freeModel, h], by decide,
    lookupE_removeL_self heap.objs nativePtr, ?_⟩
  intro q hq
  exact lookupE_removeL_ne heap.objs nativePtr q hq

theorem freeModel_releases_then_deletes_witness :
    findEngine heap1 0 = some () ∧
    (freeModel unitOps heap1 0 =
        some (removeEngine heap1 0, [Ev.engineFreeModel, Ev.deleteEngine]) ∧
      evBefore [Ev.engineFreeModel, Ev.deleteEngine]
        Ev.engineFreeModel Ev.deleteEngine = true ∧
      findEngine (removeEngine heap1 0) 0 = none ∧
      ∀ q, q ≠ 0 → findEngine (removeEngine heap1 0) q = findEngine heap1 q) :=
  ⟨rfl, freeModel_releases_then_deletes unitOps heap1 0 () rfl⟩

/-- Claim C8: the bridge has exactly one recoverable-error channel — the
integer status code of `loadModel`, which is the engine's status passed
through opaquely.  `createTFLiteEngine` is total by construction, and on a
live handle `freeModel`, `transcribeBuffer` and `transcribeFile` always
complete with a result carrying no error indication; on a stale handle
every handle-taking operation is undefined behaviour (modelled `none`),
not a recoverable error. -/
theorem single_recoverable_error_channel {σ : Type} (ops : EngineOps σ)
    (heap : Heap σ) (nativePtr : Nat) (engine : σ)
    (modelPath waveFile : String) (isMultilingual : Bool)
    (samples : List Sample) (h : findEngine heap nativePtr = some engine) :
    (loadModel ops heap nativePtr modelPath isMultilingual).map
        (fun r => r.1) =
      some (ops.loadModel engine modelPath isMultilingual).1 ∧
    (freeModel ops heap nativePtr).isSome = true ∧
    (transcribeBuffer ops heap nativePtr samples).isSome = true ∧
    (transcribeFile ops heap nativePtr waveFile).isSome = true ∧
    ∀ q, findEngine heap q = none →
      loadModel ops heap q modelPath isMultilingual = none ∧
      freeModel ops heap q = none ∧
      transcribeBuffer ops heap q samples = none ∧
      transcribeFile ops heap q waveFile = none := by
  refine ⟨by simp [loadModel, h], by simp [freeModel, h],
    by simp [transcribeBuffer, h], by simp [transcribeFile, h], ?_⟩
  intro q hq
  exact ⟨by simp [loadModel, hq], by simp [freeModel, hq],
    by simp [transcribeBuffer, hq], by simp [transcribeFile, hq]⟩

theorem single_recoverable_error_channel_witness :
    findEngine heap1 0 = some () ∧
    ((loadModel unitOps heap1 0 "m.tflite" false).map (fun r => r.1) =
        some (unitOps.loadModel () "m.tflite" false).1 ∧
      (freeModel unitOps heap1 0).isSome = true ∧
      (transcribeBuffer unitOps heap1 0 [2]).isSome = true ∧
      (transcribeFile unitOps heap1 0 "a.wav").isSome = true ∧
      ∀ q, findEngine heap1 q = none →
        loadModel unitOps heap1 q "m.tflite" false = none ∧
        freeModel unitOps heap1 q = none ∧
        transcribeBuffer unitOps heap1 q [2] = none ∧
        transcribeFile unitOps heap1 q "a.wav" = none) :=
  ⟨rfl, single_recoverable_error_channel unitOps heap1 0 () "m.tflite" "a.wav"
    false [2] rfl⟩

/-- Claim C9: in every operation that borrows a managed string or array
(`loadModel`, `transcribeBuffer`, `transcribeFile`), each acquisition of
the managed resource is paired with exactly one release of that resource
before the operation returns: each trace contains exactly one acquire and
exactly one matching release, the release after the acquire. -/
theorem borrowed_resources_paired {σ : Type} (ops : EngineOps σ)
    (heap : Heap σ) (nativePtr : Nat) (engine : σ)
    (modelPath waveFile : String) (isMultilingual : Bool)
    (samples : List Sample) (h : findEngine heap nativePtr = some engine) :
    (∃ r heapL tr,
      loadModel ops heap nativePtr modelPath isMultilingual =
        some (r, heapL, tr) ∧
      pairedOnce isStringAcquire isStringRelease tr) ∧
    (∃ text heapB sa tr,
      transcribeBuffer ops heap nativePtr samples = some (text, heapB, sa, tr) ∧
      pairedOnce isArrayAcquire isArrayRelease tr) ∧
    (∃ text heapF tr,
      transcribeFile ops heap nativePtr waveFile = some (text, heapF, tr) ∧
      pairedOnce isStringAcquire isStringRelease tr) := by
  refine ⟨⟨(ops.loadModel engine modelPath isMultilingual).1,
      updateEngine heap nativePtr
        (ops.loadModel engine modelPath isMultilingual).2,
      [Ev.getStringUTFChars, Ev.engineLoadModel, Ev.releaseStringUTFChars],
      by simp [loadModel, h], by decide⟩,
    ⟨newStringUTF (ops.transcribeBuffer engine samples).1,
      updateEngine heap nativePtr (ops.transcribeBuffer engine samples).2,
      samples,
      [Ev.getArrayLength, Ev.getFloatArrayElements, Ev.copySamples,
       Ev.releaseFloatArrayElements RelMode.abort, Ev.engineTranscribeBuffer,
       Ev.newStringUTF],
      by simp [transcribeBuffer, h, releaseFloatArrayElements,
        List.take_length], by decide⟩,
    ⟨newStringUTF (ops.transcribeFile engine waveFile).1,
      updateEngine heap nativePtr (ops.transcribeFile engine waveFile).2,
      [Ev.getStringUTFChars, Ev.engineTranscribeFile, Ev.releaseStringUTFChars,
       Ev.newStringUTF],
      by simp [transcribeFile, h], by decide⟩⟩

theorem borrowed_resources_paired_witness :
    findEngine heap1 0 = some () ∧
    ((∃ r heapL tr,
        loadModel unitOps heap1 0 "m.tflite" true = some (r, heapL, tr) ∧
        pairedOnce isStringAcquire isStringRelease tr) ∧
      (∃ text heapB sa tr,
        transcribeBuffer unitOps heap1 0 [5] = some (text, heapB, sa, tr) ∧
        pairedOnce isArrayAcquire isArrayRelease tr) ∧
      (∃ text heapF tr,
        transcribeFile unitOps heap1 0 "a.wav" = some (text, heapF, tr) ∧
        pairedOnce isStringAcquire isStringRelease tr)) :=
  ⟨rfl, borrowed_resources_paired unitOps heap1 0 () "m.tflite" "a.wav" true
    [5] rfl⟩

/-- The prefix of a native string that precedes its first NUL character. -/
def prefixBeforeFirstNul (s : EngineString) : EngineString :=
  s.takeWhile (fun c => c != nulChar)

/-- Claim C10: for every engine transcription result that contains an
embedded NUL character, `transcribeBuffer` and `transcribeFile` return to
the caller only the prefix of the result before the first NUL, because the
result is marshaled through its C-string representation
(`NewStringUTF(result.c_str())`). -/
theorem transcribe_truncated_at_first_nul {σ : Type} (ops : EngineOps σ)
    (heap : Heap σ) (nativePtr : Nat) (engine : σ) (samples : List Sample)
    (waveFile : String) (h : findEngine heap nativePtr = some engine)
    (hb : nulChar ∈ (ops.transcribeBuffer engine samples).1)
    (hf : nulChar ∈ (ops.transcribeFile engine waveFile).1) :
    (∃ heapB sa tr, transcribeBuffer ops heap nativePtr samples =
      some (prefixBeforeFirstNul (ops.transcribeBuffer engine samples).1,
        heapB, sa, tr)) ∧
    (∃ heapF tr, transcribeFile ops heap nativePtr waveFile =
      some (prefixBeforeFirstNul (ops.transcribeFile engine waveFile).1,
        heapF, tr)) := by
  constructor
  · refine ⟨updateEngine heap nativePtr (ops.transcribeBuffer engine samples).2,
      samples,
      [Ev.getArrayLength, Ev.getFloatArrayElements, Ev.copySamples,
       Ev.releaseFloatArrayElements RelMode.abort, Ev.engineTranscribeBuffer,
       Ev.newStringUTF], ?_⟩
    simp [transcribeBuffer, h, releaseFloatArrayElements, List.take_length,
      newStringUTF_eq_takeWhile, prefixBeforeFirstNul]
  · refine ⟨updateEngine heap nativePtr (ops.transcribeFile engine waveFile).2,
      [Ev.getStringUTFChars, Ev.engineTranscribeFile, Ev.releaseStringUTFChars,
       Ev.newStringUTF], ?_⟩
    simp [transcribeFile, h, newStringUTF_eq_takeWhile, prefixBeforeFirstNul]

theorem transcribe_truncated_at_first_nul_witness :
    findEngine heap1 0 = some () ∧
    nulChar ∈ (nulOps.transcribeBuffer () [5]).1 ∧
    nulChar ∈ (nulOps.transcribeFile () "a.wav").1 ∧
    ((∃ heapB sa tr, transcribeBuffer nulOps heap1 0 [5] =
        some (prefixBeforeFirstNul (nulOps.transcribeBuffer () [5]).1,
          heapB, sa, tr)) ∧
      (∃ heapF tr, transcribeFile nulOps heap1 0 "a.wav" =
        some (prefixBeforeFirstNul (nulOps.transcribeFile () "a.wav").1,
          heapF, tr))) :=
  ⟨rfl, by decide, by decide,
    transcribe_truncated_at_first_nul nulOps heap1 0 () [5] "a.wav" rfl
      (by decide) (by decide)⟩

/-- Claim C6 (engine behaviour modelled from the spec): for every live
handle, calling `loadModel` with a model path that is not readable returns
a nonzero status code and leaves the handle live with its engine state
unchanged, so a subsequent `loadModel` call with a corrected path on the
same handle is valid and succeeds with status `0`. -/
theorem loadModel_failure_keeps_handle_usable (fileReadable : String → Bool)
    (noSpeech : EngineString) (engineText : List Sample → EngineString)
    (fileText : String → EngineString) (heap : Heap SpecEngine)
    (nativePtr : Nat) (engine : SpecEngine) (badPath goodPath : String)
    (flag flag2 : Bool) (h : findEngine heap nativePtr = some engine)
    (hbad : fileReadable badPath = false)
    (hgood : fileReadable goodPath = true) :
    ∃ heapA trA,
      loadModel (specOps fileReadable noSpeech engineText fileText) heap
        nativePtr badPath flag = some (1, heapA, trA) ∧
      (1 : Int) ≠ 0 ∧
      findEngine heapA nativePtr = some engine ∧
      ∃ heapB trB,
        loadModel (specOps fileReadable noSpeech engineText fileText) heapA
          nativePtr goodPath flag2 = some (0, heapB, trB) ∧
        findEngine heapB nativePtr =
          some { loaded := true, multilingual := flag2 } := by
  have h1 : findEngine (updateEngine heap nativePtr engine) nativePtr
      = some engine := findEngine_updateEngine_self engine h
  refine ⟨updateEngine heap nativePtr engine,
    [Ev.getStringUTFChars, Ev.engineLoadModel, Ev.releaseStringUTFChars],
    ?_, by decide, h1,
    updateEngine (updateEngine heap nativePtr engine) nativePtr
      { loaded := true, multilingual := flag2 },
    [Ev.getStringUTFChars, Ev.engineLoadModel, Ev.releaseStringUTFChars],
    ?_, findEngine_updateEngine_self _ h1⟩
  · simp [loadModel, h, specOps, specLoadModel, hbad]
  · simp [loadModel, h1, specOps, specLoadModel, hgood]

theorem loadModel_failure_keeps_handle_usable_witness :
    findEngine specHeap1 0 = some specEngine0 ∧
    (fun p => p == "good.tflite") "bad.tflite" = false ∧
    (fun p => p == "good.tflite") "good.tflite" = true ∧
    (∃ heapA trA,
      loadModel (specOps (fun p => p == "good.tflite") [] (fun _ => [])
          (fun _ => [])) specHeap1 0 "bad.tflite" false =
        some (1, heapA, trA) ∧
      (1 : Int) ≠ 0 ∧
      findEngine heapA 0 = some specEngine0 ∧
      ∃ heapB trB,
        loadModel (specOps (fun p => p == "good.tflite") [] (fun _ => [])
            (fun _ => [])) heapA 0 "good.tflite" true =
          some (0, heapB, trB) ∧
        findEngine heapB 0 = some { loaded := true, multilingual := true }) :=
  ⟨rfl, rfl, rfl,
    loadModel_failure_keeps_handle_usable (fun p => p == "good.tflite") []
      (fun _ => []) (fun _ => []) specHeap1 0 specEngine0 "bad.tflite"
      "good.tflite" false true rfl rfl rfl⟩

/-- Claim C7 (engine behaviour modelled from the spec): for every live
handle, `transcribeBuffer` applied to an empty sample sequence completes
normally (the bridge is a total function, and the call yields a `some`
result, never a crash) and returns the engine-defined no-speech text —
the empty string when the engine defines it so. -/
theorem transcribeBuffer_empty_returns_no_speech (fileReadable : String → Bool)
    (noSpeech : EngineString) (engineText : List Sample → EngineString)
    (fileText : String → EngineString) (heap : Heap SpecEngine)
    (nativePtr : Nat) (engine : SpecEngine)
    (h : findEngine heap nativePtr = some engine)
    (hnul : nulChar ∉ noSpeech) :
    ∃ heapB sa tr,
      transcribeBuffer (specOps fileReadable noSpeech engineText fileText)
        heap nativePtr [] = some (noSpeech, heapB, sa, tr) := by
  refine ⟨updateEngine heap nativePtr engine, [],
    [Ev.getArrayLength, Ev.getFloatArrayElements, Ev.copySamples,
     Ev.releaseFloatArrayElements RelMode.abort, Ev.engineTranscribeBuffer,
     Ev.newStringUTF], ?_⟩
  simp [transcribeBuffer, h, releaseFloatArrayElements, specOps,
    specTranscribeBuffer, newStringUTF_of_not_mem hnul]

theorem transcribeBuffer_empty_returns_no_speech_witness :
    findEngine specHeap1 0 = some specEngine0 ∧
    nulChar ∉ ([] : EngineString) ∧
    ∃ heapB sa tr,
      transcribeBuffer (specOps (fun _ => true) [] (fun _ => ['x'])
          (fun _ => [])) specHeap1 0 [] = some ([], heapB, sa, tr) :=
  ⟨rfl, by decide,
    transcribeBuffer_empty_returns_no_speech (fun _ => true) []
      (fun _ => ['x']) (fun _ => []) specHeap1 0 specEngine0 rfl (by decide)⟩

end NativeBridge
